import Mathlib

/-!
# Verification of the DocGen-Ai document embedding store

Shallow embedding of `src/backend/embeddings.py` (class `DocumentEmbeddings`):
text chunking, the FAISS-backed vector store, add/search/remove/stats, and
persistence.  External collaborators (the SentenceTransformer encoder, the
FAISS `IndexFlatIP`, the pickle file on disk) are modelled abstractly,
following the contracts the specification assigns to them; everything the
repository itself implements is translated line by line from the source.

Conventions:
* Python `int` is `Int`; list indices are `Nat`.
* A chunk's embedding vector is represented by the chunk text itself; the
  similarity model is an abstract score function `sim : String → String → Int`
  (the ordering behaviour of search never depends on actual float values).
* Python exceptions that a surrounding `try/except` catches are modelled with
  `Except`/`Option` on the inner operation and an explicit handler in the
  caller.
-/

namespace DocGen

instance {ε α : Type} [DecidableEq ε] [DecidableEq α] : DecidableEq (Except ε α) := fun
  | .error e, .error f =>
    if h : e = f then .isTrue (by rw [h]) else .isFalse (by simp [h])
  | .error _, .ok _ => .isFalse (by simp)
  | .ok _, .error _ => .isFalse (by simp)
  | .ok a, .ok b =>
    if h : a = b then .isTrue (by rw [h]) else .isFalse (by simp [h])

/-! ## Python primitives used by `_chunk_text` -/

/-- Splitting a character list on whitespace runs, accumulating the current
word in reverse; empty fields are dropped, as Python `str.split()` does. -/
def splitWs : List Char → List Char → List (List Char)
  | [], acc => if acc = [] then [] else [acc.reverse]
  | c :: cs, acc =>
    if c.isWhitespace then
      if acc = [] then splitWs cs [] else acc.reverse :: splitWs cs []
    else splitWs cs (c :: acc)

/-- Python `str.split()` with no argument: split on runs of whitespace,
dropping empty fields. -/
def pysplit (text : String) : List String :=
  (splitWs text.data []).map String.mk

/-- Python `str.strip()` on a character list: drop leading and trailing
whitespace. -/
def pystrip (l : List Char) : List Char :=
  ((l.dropWhile Char.isWhitespace).reverse.dropWhile Char.isWhitespace).reverse

/-- The truthiness test `if chunk.strip():` — true iff the stripped string is
non-empty. -/
def stripNonempty (s : String) : Bool :=
  pystrip s.data ≠ []

/-- Error raised by Python `range(start, stop, step)` when `step = 0`
(`ValueError: range() arg 3 must not be zero`). -/
inductive ChunkError where
  | zeroStep
deriving DecidableEq, Repr

/-- Python `range(0, n, step)` for an arbitrary (possibly non-positive)
integer step: raises for `step = 0`, is empty for `step < 0` (since the
stop `n` is never below the start `0`), and for `step > 0` yields
`0, step, 2*step, …` up to (excluding) `n`. -/
def pyRange0 (n : Nat) (step : Int) : Except ChunkError (List Nat) :=
  if step = 0 then .error .zeroStep
  else if step < 0 then .ok []
  else .ok ((List.range ((n + step.toNat - 1) / step.toNat)).map (fun j => j * step.toNat))

/-- Python `words[i : i + chunk_size]` joined by `' '.join`: the window of the
chunker starting at `i`.  A non-positive `chunk_size` gives the empty slice,
as in Python (`i + chunk_size ≤ i`). -/
def window (words : List String) (i : Nat) (chunk_size : Int) : String :=
  String.intercalate " " ((words.drop i).take chunk_size.toNat)

/-- The loop body of `_chunk_text`: collect the windows whose stripped text is
non-empty, in index order (`if chunk.strip(): chunks.append(chunk)`). -/
def collectChunks (words : List String) (idxs : List Nat) (chunk_size : Int) : List String :=
  idxs.foldl (fun acc i =>
    let chunk := window words i chunk_size
    if stripNonempty chunk then acc ++ [chunk] else acc) []

/-- `DocumentEmbeddings._chunk_text`: split into words, walk the word list
with stride `chunk_size - overlap`, join each window with spaces, drop
whitespace-only windows, and fall back to `[text]` when no window survives.
The `Except` layer carries the `ValueError` Python's `range` raises when the
stride is zero. -/
def chunk_text (text : String) (chunk_size overlap : Int) : Except ChunkError (List String) :=
  match pyRange0 (pysplit text).length (chunk_size - overlap) with
  | .error e => .error e
  | .ok idxs =>
    let chunks := collectChunks (pysplit text) idxs chunk_size
    .ok (if chunks.isEmpty then [text] else chunks)

theorem chunk_text_eq_ok (text : String) (cs ov : Int) {idxs : List Nat}
    (hidxs : pyRange0 (pysplit text).length (cs - ov) = .ok idxs) :
    chunk_text text cs ov =
      .ok (if (collectChunks (pysplit text) idxs cs).isEmpty then [text]
        else collectChunks (pysplit text) idxs cs) := by
  unfold chunk_text
  rw [hidxs]

theorem chunk_text_eq_error (text : String) (cs ov : Int) {e : ChunkError}
    (h : pyRange0 (pysplit text).length (cs - ov) = .error e) :
    chunk_text text cs ov = .error e := by
  unfold chunk_text
  rw [h]

theorem pyRange0_pos {n : Nat} {step : Int} (h : 0 < step) :
    pyRange0 n step =
      .ok ((List.range ((n + step.toNat - 1) / step.toNat)).map (fun j => j * step.toNat)) := by
  unfold pyRange0
  rw [if_neg (by omega), if_neg (by omega)]

theorem pyRange0_neg {n : Nat} {step : Int} (h : step < 0) : pyRange0 n step = .ok [] := by
  unfold pyRange0
  rw [if_neg (by omega), if_pos h]

theorem pyRange0_zero {n : Nat} : pyRange0 n 0 = .error .zeroStep := by
  unfold pyRange0
  rw [if_pos rfl]

/-! ## Data model of `DocumentEmbeddings` -/

/-- One entry of `self.metadata`: the caller's dictionary (of which only the
`document_id` key is ever read back by the store — `meta.get('document_id')`,
absent modelled as `none`) plus the `chunk_id` and `chunk_text` keys injected
by `add_document`. -/
structure ChunkMeta where
  document_id : Option String
  chunk_id : Nat
  chunk_text : String
deriving DecidableEq, Repr

instance : Inhabited ChunkMeta := ⟨⟨none, 0, ""⟩⟩

/-- The mutable state of a `DocumentEmbeddings` instance: the FAISS
`IndexFlatIP` (each stored vector identified by the text it encodes, in
insertion order — `index.ntotal` is `index.length`), the parallel
`self.documents` and `self.metadata` lists. -/
structure EmbeddingState where
  index : List String
  documents : List String
  metadata : List ChunkMeta
deriving DecidableEq, Repr

/-- A fresh store (empty FAISS index, no documents, no metadata). -/
def emptyState : EmbeddingState := ⟨[], [], []⟩

/-- Result of a mutating operation: the returned boolean, the in-memory state
afterwards, and whether `save_index` displayed a persistence error
(`st.error`). -/
structure OpResult where
  ok : Bool
  state : EmbeddingState
  persistError : Bool
deriving DecidableEq, Repr

/-- `save_index`: writes the pickle to disk.  It catches every exception
itself (`try/except` around the write, `st.error(...)`) and returns `None`,
so a failed write is never visible to the caller as an exception or a return
value; it only shows as a displayed error message.  It does not touch the
in-memory state.  `persistOk` models whether the disk write succeeds; the
returned flag is whether an error message was displayed. -/
def save_index (persistOk : Bool) : Bool := !persistOk

/-- Python `enumerate(l, n)`. -/
def enumFrom : Nat → List α → List (Nat × α)
  | _, [] => []
  | n, a :: as => (n, a) :: enumFrom (n + 1) as

/-! ## `add_document` -/

/-- One iteration of the loop in `add_document`: encode the chunk, add its
vector to the FAISS index, append the chunk to `self.documents` and the
caller's metadata (with `chunk_id` and `chunk_text` injected) to
`self.metadata`. -/
def addChunk (m : Option String) (s : EmbeddingState) (p : Nat × String) : EmbeddingState :=
  { index := s.index ++ [p.2],
    documents := s.documents ++ [p.2],
    metadata := s.metadata ++ [{ document_id := m, chunk_id := p.1, chunk_text := p.2 }] }

/-- `DocumentEmbeddings.add_document`: chunk the text with the fixed defaults
`chunk_size=512, overlap=50`, loop over `enumerate(chunks)` appending to the
index and both lists, then `save_index`; returns `True` on success.  An
exception inside the `try` block (in our model, only the chunker can raise)
is caught and turns into `return False` with the state untouched. -/
def add_document (persistOk : Bool) (s : EmbeddingState) (text : String) (m : Option String) :
    OpResult :=
  match chunk_text text 512 50 with
  | .error _ => { ok := false, state := s, persistError := false }
  | .ok chunks =>
    { ok := true,
      state := (enumFrom 0 chunks).foldl (addChunk m) s,
      persistError := save_index persistOk }

/-! ## `search`

The FAISS `IndexFlatIP.search` call is external to the repository; it is
modelled from the spec's contract for the dense similarity backend (§4.2):
score every stored vector against the query, return the top `k` entries
sorted by descending score, ties broken by original insertion order. -/

/-- The ranking order FAISS search output obeys: higher score first, ties by
lower (earlier-inserted) index. -/
def faissLe (a b : Nat × Int) : Prop := b.2 < a.2 ∨ (a.2 = b.2 ∧ a.1 ≤ b.1)

instance : DecidableRel faissLe := fun a b => by unfold faissLe; exact inferInstance

instance : IsTotal (Nat × Int) faissLe := ⟨by intro a b; unfold faissLe; omega⟩

instance : IsTrans (Nat × Int) faissLe := ⟨by intro a b c; unfold faissLe; omega⟩

/-- Modelled from the spec: FAISS `index.search(query_vec, k)` over an index
holding the vectors of `index` (in insertion order), under the abstract
similarity `sim`.  Returns `(position, score)` pairs for the top `k`
entries, sorted by descending score with ties in insertion order. -/
def faiss_search (sim : String → String → Int) (index : List String) (q : String) (k : Int) :
    List (Nat × Int) :=
  (List.insertionSort faissLe (enumFrom 0 (index.map (fun t => sim q t)))).take k.toNat

/-- One search result: `self.metadata[idx].copy()` with `similarity_score`
and `text` added. -/
structure SearchResult where
  document_id : Option String
  chunk_id : Nat
  chunk_text : String
  similarity_score : Int
  text : String
deriving DecidableEq, Repr

/-- Assembling one result record from a metadata entry, a score and the
chunk text. -/
def mkResult (m : ChunkMeta) (score : Int) (t : String) : SearchResult :=
  { document_id := m.document_id, chunk_id := m.chunk_id, chunk_text := m.chunk_text,
    similarity_score := score, text := t }

/-- The result-assembly loop of `search`: for each `(idx, score)` pair, if
`idx < len(self.metadata)` build a record from `self.metadata[idx]` and
`self.documents[idx]`, else skip the pair.  The `self.documents[idx]` access
is *not* covered by the bound check; an out-of-range access raises
`IndexError`, modelled as `none` (the caller's `except` turns it into `[]`,
discarding results built so far).  The `self.metadata[idx]` access cannot
fail thanks to the check. -/
def searchBuild (s : EmbeddingState) : List (Nat × Int) → Option (List SearchResult)
  | [] => some []
  | (idx, score) :: rest =>
    if idx < s.metadata.length then
      match s.metadata.get? idx, s.documents.get? idx with
      | some m, some t => (searchBuild s rest).map (fun rs => mkResult m score t :: rs)
      | _, _ => none
    else searchBuild s rest

/-- `DocumentEmbeddings.search`: empty result if the index is empty,
otherwise FAISS search with `min(k, self.index.ntotal)`, then the assembly
loop; any exception is caught and `[]` returned. -/
def search (sim : String → String → Int) (s : EmbeddingState) (q : String) (k : Int) :
    List SearchResult :=
  if s.index.length = 0 then []
  else
    match searchBuild s (faiss_search sim s.index q (min k (s.index.length : Int))) with
    | some rs => rs
    | none => []

/-! ## `remove_document` -/

/-- The index-collection loop of `remove_document`:
`for i, meta in enumerate(self.metadata): if meta.get('document_id') == document_id: ...`,
started at position `n`. -/
def matchIdxsFrom (did : String) : Nat → List ChunkMeta → List Nat
  | _, [] => []
  | n, m :: ms =>
    if m.document_id = some did then n :: matchIdxsFrom did (n + 1) ms
    else matchIdxsFrom did (n + 1) ms

/-- Python `del l[idx]` for a non-negative index: deletes the entry when the
index is in range and raises `IndexError` (modelled as `none`) otherwise. -/
def delIdx (l : List α) (idx : Nat) : Option (List α) :=
  if idx < l.length then some (l.eraseIdx idx) else none

/-- The deletion loop of `remove_document`:
`for idx in reversed(indices_to_remove): del self.metadata[idx]; del self.documents[idx]`
(the argument list is already reversed by the caller).  The boolean records
whether the loop ran to completion: an out-of-range `del` raises
`IndexError`, which aborts the loop — but the deletions already performed
stay, because Python mutates the lists in place.  Note the asymmetric
partial state when the `documents` deletion is the one that raises: the
`metadata` entry of that iteration is already gone. -/
def removeLoop : List Nat → List β → List γ → Bool × List β × List γ
  | [], md, docs => (true, md, docs)
  | idx :: rest, md, docs =>
    match delIdx md idx with
    | none => (false, md, docs)
    | some md' =>
      match delIdx docs idx with
      | none => (false, md', docs)
      | some docs' => removeLoop rest md' docs'

/-- `DocumentEmbeddings._rebuild_index`: fresh `IndexFlatIP`, and only if
`self.documents` is non-empty, re-encode all documents and add their vectors
(in order). -/
def rebuild_index (docs : List String) : List String :=
  if docs.isEmpty then [] else docs

/-- `DocumentEmbeddings.remove_document`: collect the positions whose
metadata `document_id` equals the argument, delete them from both parallel
lists in reverse (descending) order, rebuild the FAISS index from the
surviving documents, `save_index`, and return `True`.  The whole body sits
in a `try/except`: if a `del` raises `IndexError` (possible when
`self.documents` is shorter than `self.metadata`), the handler displays the
error and returns `False` — the deletions already performed remain in
memory, the FAISS index is *not* rebuilt, and `save_index` is never
reached. -/
def remove_document (persistOk : Bool) (s : EmbeddingState) (did : String) : OpResult :=
  match removeLoop (matchIdxsFrom did 0 s.metadata).reverse s.metadata s.documents with
  | (true, md, docs) =>
    { ok := true,
      state := { index := rebuild_index docs, documents := docs, metadata := md },
      persistError := save_index persistOk }
  | (false, md, docs) =>
    { ok := false,
      state := { index := s.index, documents := docs, metadata := md },
      persistError := false }

/-! ## `get_document_stats` and operation sequences -/

/-- The record returned by `get_document_stats`. -/
structure Stats where
  total_chunks : Nat
  total_documents : Nat
  index_size : Nat
deriving DecidableEq, Repr

/-- `DocumentEmbeddings.get_document_stats`: `total_chunks` is
`len(self.documents)`, `total_documents` counts the distinct values of
`meta.get('document_id', '')`, `index_size` is `self.index.ntotal`. -/
def get_document_stats (s : EmbeddingState) : Stats :=
  { total_chunks := s.documents.length,
    total_documents := ((s.metadata.map (fun m => m.document_id.getD "")).dedup).length,
    index_size := s.index.length }

/-- A mutating operation on the store. -/
inductive Op where
  | add (text : String) (m : Option String)
  | remove (did : String)
deriving DecidableEq, Repr

/-- The state transition of one mutating operation (persistence succeeding;
the in-memory state does not depend on it). -/
def applyOp (s : EmbeddingState) : Op → EmbeddingState
  | .add text m => (add_document true s text m).state
  | .remove did => (remove_document true s did).state

/-! ## Helper lemmas: enumeration -/

theorem enumFrom_length (l : List α) : ∀ n, (enumFrom n l).length = l.length := by
  induction l with
  | nil => intro n; rfl
  | cons a l ih => intro n; simp [enumFrom, ih]

theorem enumFrom_map_snd (l : List α) : ∀ n, (enumFrom n l).map Prod.snd = l := by
  induction l with
  | nil => intro n; rfl
  | cons a l ih => intro n; simp [enumFrom, ih]

theorem le_fst_of_mem_enumFrom {l : List α} {p : Nat × α} :
    ∀ {n}, p ∈ enumFrom n l → n ≤ p.1 := by
  induction l with
  | nil => intro n h; simp [enumFrom] at h
  | cons a l ih =>
    intro n h
    simp only [enumFrom, List.mem_cons] at h
    rcases h with h | h
    · subst h; exact Nat.le_refl n
    · exact Nat.le_of_succ_le (ih h)

theorem pairwise_fst_lt_enumFrom (l : List α) :
    ∀ n, List.Pairwise (fun a b : Nat × α => a.1 < b.1) (enumFrom n l) := by
  induction l with
  | nil => intro n; simp [enumFrom]
  | cons a l ih =>
    intro n
    refine List.Pairwise.cons ?_ (ih (n + 1))
    intro p hp
    exact Nat.lt_of_lt_of_le (Nat.lt_succ_self n) (le_fst_of_mem_enumFrom hp)

/-! ## Helper lemmas: the `add_document` loop -/

theorem addFold (m : Option String) (l : List (Nat × String)) : ∀ s : EmbeddingState,
    (l.foldl (addChunk m) s) =
      { index := s.index ++ l.map Prod.snd,
        documents := s.documents ++ l.map Prod.snd,
        metadata := s.metadata ++
          l.map (fun p => ⟨m, p.1, p.2⟩) } := by
  induction l with
  | nil => intro s; simp
  | cons p l ih =>
    intro s
    simp only [List.foldl_cons, ih, List.map_cons]
    simp [addChunk]

/-- The state after a successful `add_document`: all three sequences extended
by the chunks (the metadata with `chunk_id`/`chunk_text` injected). -/
theorem add_document_state (pOk : Bool) (s : EmbeddingState) (text : String) (m : Option String)
    {chunks : List String} (h : chunk_text text 512 50 = .ok chunks) :
    (add_document pOk s text m).state =
      { index := s.index ++ chunks,
        documents := s.documents ++ chunks,
        metadata := s.metadata ++ (enumFrom 0 chunks).map (fun p => ⟨m, p.1, p.2⟩) } := by
  unfold add_document
  rw [h]
  simp only [addFold, enumFrom_map_snd]

/-- `_chunk_text` with the fixed defaults `512/50` never raises (the stride
`462` is positive), so `add_document` always takes the success path. -/
theorem chunk_text_512_ok (text : String) : ∃ chunks, chunk_text text 512 50 = .ok chunks :=
  ⟨_, chunk_text_eq_ok text 512 50 (pyRange0_pos (by norm_num))⟩

/-! ## Helper lemmas: the `remove_document` loops -/

theorem matchIdxsFrom_shift (did : String) (ms : List ChunkMeta) :
    ∀ n, matchIdxsFrom did (n + 1) ms = (matchIdxsFrom did n ms).map (· + 1) := by
  induction ms with
  | nil => intro n; rfl
  | cons m ms ih =>
    intro n
    by_cases h : m.document_id = some did <;> simp [matchIdxsFrom, h, ih]

theorem delIdx_cons_zero (x : α) (l : List α) : delIdx (x :: l) 0 = some l := by
  simp [delIdx]

theorem delIdx_cons_succ (x : α) (l : List α) (j : Nat) :
    delIdx (x :: l) (j + 1) = (delIdx l j).map (fun t => x :: t) := by
  unfold delIdx
  by_cases h : j < l.length
  · rw [if_pos h, if_pos (by simp only [List.length_cons]; omega)]
    simp
  · rw [if_neg h, if_neg (by simp only [List.length_cons]; omega)]
    rfl

theorem removeLoop_append (xs ys : List Nat) : ∀ (md : List β) (docs : List γ),
    removeLoop (xs ++ ys) md docs =
      (if (removeLoop xs md docs).1 then
        removeLoop ys (removeLoop xs md docs).2.1 (removeLoop xs md docs).2.2
      else removeLoop xs md docs) := by
  induction xs with
  | nil => intro md docs; simp [removeLoop]
  | cons idx rest ih =>
    intro md docs
    simp only [List.cons_append, removeLoop]
    cases hmd : delIdx md idx with
    | none => simp
    | some md' =>
      cases hdocs : delIdx docs idx with
      | none => simp
      | some docs' => exact ih md' docs'

theorem removeLoop_map_succ (js : List Nat) : ∀ (x : β) (md : List β) (a : γ) (docs : List γ),
    removeLoop (js.map (· + 1)) (x :: md) (a :: docs) =
      ((removeLoop js md docs).1, x :: (removeLoop js md docs).2.1,
        a :: (removeLoop js md docs).2.2) := by
  induction js with
  | nil => intro x md a docs; rfl
  | cons j js ih =>
    intro x md a docs
    simp only [List.map_cons, removeLoop, delIdx_cons_succ]
    cases hmd : delIdx md j with
    | none => simp
    | some md' =>
      cases hdocs : delIdx docs j with
      | none => simp
      | some docs' => simpa using ih x md' a docs'

/-- On parallel lists of equal length, the deletion loop over the collected
match positions (in descending order) runs to completion and keeps exactly
the non-matching metadata and the chunks paired with it. -/
theorem removeLoop_matchIdxs (did : String) :
    ∀ (ms : List ChunkMeta) (l : List α), l.length = ms.length →
      removeLoop (matchIdxsFrom did 0 ms).reverse ms l =
        (true, ms.filter (fun m => m.document_id ≠ some did),
          ((l.zip ms).filter (fun p => p.2.document_id ≠ some did)).map Prod.fst) := by
  intro ms
  induction ms with
  | nil =>
    intro l h
    have hl : l = [] := by simpa using h
    subst hl; rfl
  | cons m ms ih =>
    intro l h
    match l with
    | [] => simp at h
    | a :: l =>
      simp only [List.length_cons, Nat.succ_inj] at h
      simp only [matchIdxsFrom, matchIdxsFrom_shift did ms 0]
      by_cases hm : m.document_id = some did
      · rw [if_pos hm, List.reverse_cons, ← List.map_reverse, removeLoop_append,
          removeLoop_map_succ, ih l h]
        simp [removeLoop, delIdx_cons_zero, hm]
      · rw [if_neg hm, ← List.map_reverse, removeLoop_map_succ, ih l h]
        simp [hm]

theorem zip_filter_length (P : ChunkMeta → Bool) :
    ∀ (ms : List ChunkMeta) (l : List α), l.length = ms.length →
      (((l.zip ms).filter (fun p => P p.2)).map Prod.fst).length =
        (ms.filter (fun m => P m)).length := by
  intro ms
  induction ms with
  | nil =>
    intro l h
    have hl : l = [] := by simpa using h
    subst hl; rfl
  | cons m ms ih =>
    intro l h
    match l with
    | [] => simp at h
    | a :: l =>
      simp only [List.length_cons, Nat.succ_inj] at h
      by_cases hm : P m <;> simp [hm, ih l h]

/-- The FAISS rebuild puts back exactly the surviving documents (the
`if self.documents:` guard changes nothing: an empty list rebuilds to an
empty index). -/
theorem rebuild_index_eq (docs : List String) : rebuild_index docs = docs := by
  unfold rebuild_index
  split
  · next h => simp_all [List.isEmpty_iff]
  · rfl

/-- On a store whose parallel lists have equal length, `remove_document`'s
deletion loop cannot raise, so the whole operation takes the success path:
metadata filtered, documents filtered alongside, index rebuilt, `True`
returned, `save_index` reached. -/
theorem remove_document_success (pOk : Bool) (s : EmbeddingState) (did : String)
    (h : s.documents.length = s.metadata.length) :
    remove_document pOk s did =
      { ok := true,
        state :=
          { index := rebuild_index
              (((s.documents.zip s.metadata).filter
                (fun p => p.2.document_id ≠ some did)).map Prod.fst),
            documents := ((s.documents.zip s.metadata).filter
              (fun p => p.2.document_id ≠ some did)).map Prod.fst,
            metadata := s.metadata.filter (fun m => m.document_id ≠ some did) },
        persistError := save_index pOk } := by
  unfold remove_document
  rw [removeLoop_matchIdxs did s.metadata s.documents h]

/-- The metadata after a `remove_document` on a parity store is exactly the
non-matching metadata, in order. -/
theorem remove_document_metadata (pOk : Bool) (s : EmbeddingState) (did : String)
    (h : s.documents.length = s.metadata.length) :
    (remove_document pOk s did).state.metadata =
      s.metadata.filter (fun m => m.document_id ≠ some did) := by
  rw [remove_document_success pOk s did h]

/-- The documents after a `remove_document` on a parity store: exactly the
chunks paired with non-matching metadata. -/
theorem remove_document_documents (pOk : Bool) (s : EmbeddingState) (did : String)
    (h : s.documents.length = s.metadata.length) :
    (remove_document pOk s did).state.documents =
      ((s.documents.zip s.metadata).filter (fun p => p.2.document_id ≠ some did)).map
        Prod.fst := by
  rw [remove_document_success pOk s did h]

/-- On a parity store the rebuilt index after `remove_document` holds exactly
the surviving documents. -/
theorem remove_document_index (pOk : Bool) (s : EmbeddingState) (did : String)
    (h : s.documents.length = s.metadata.length) :
    (remove_document pOk s did).state.index =
      (remove_document pOk s did).state.documents := by
  rw [remove_document_success pOk s did h]
  exact rebuild_index_eq _

/-- On a parity store `remove_document` returns `True`. -/
theorem remove_document_ok (pOk : Bool) (s : EmbeddingState) (did : String)
    (h : s.documents.length = s.metadata.length) :
    (remove_document pOk s did).ok = true := by
  rw [remove_document_success pOk s did h]

/-! ## Helper lemmas: `search` -/

/-- The result record assembled for a surviving `(position, score)` pair
(total formulation; under the bound check the defaults are never used). -/
def resultOfPair (s : EmbeddingState) (p : Nat × Int) : SearchResult :=
  mkResult (s.metadata.getD p.1 default) p.2 (s.documents.getD p.1 "")

/-- The `(position, score)` pairs that survive the `idx < len(self.metadata)`
check of the assembly loop, in FAISS rank order. -/
def searchPairs (sim : String → String → Int) (s : EmbeddingState) (q : String) (k : Int) :
    List (Nat × Int) :=
  if s.index.length = 0 then []
  else (faiss_search sim s.index q (min k (s.index.length : Int))).filter
    (fun p => p.1 < s.metadata.length)

/-- When the two parallel lists have equal length, the assembly loop never
raises: it returns exactly the records of the in-range pairs. -/
theorem searchBuild_eq (s : EmbeddingState) (h : s.documents.length = s.metadata.length) :
    ∀ pairs : List (Nat × Int),
      searchBuild s pairs =
        some ((pairs.filter (fun p => p.1 < s.metadata.length)).map (resultOfPair s)) := by
  intro pairs
  induction pairs with
  | nil => rfl
  | cons p rest ih =>
    obtain ⟨idx, score⟩ := p
    by_cases hidx : idx < s.metadata.length
    · have hd : idx < s.documents.length := h ▸ hidx
      have hm : s.metadata.get? idx = some (s.metadata.getD idx default) := by
        rw [List.getD_eq_get? ]
        cases hg : s.metadata.get? idx with
        | none => exact absurd (List.get?_eq_none.mp hg) (by omega)
        | some m => rfl
      have ht : s.documents.get? idx = some (s.documents.getD idx "") := by
        rw [List.getD_eq_get? ]
        cases hg : s.documents.get? idx with
        | none => exact absurd (List.get?_eq_none.mp hg) (by omega)
        | some t => rfl
      simp only [searchBuild, if_pos hidx, hm, ht, ih, Option.map_some]
      simp [hidx, resultOfPair]
    · simp only [searchBuild, if_neg hidx, ih]
      simp [hidx]

/-- `search` under the parity invariant: the records of the surviving pairs,
in rank order. -/
theorem search_eq (sim : String → String → Int) (s : EmbeddingState) (q : String) (k : Int)
    (h : s.documents.length = s.metadata.length) :
    search sim s q k = (searchPairs sim s q k).map (resultOfPair s) := by
  unfold search searchPairs
  by_cases h0 : s.index.length = 0
  · simp [h0]
  · rw [if_neg h0, if_neg h0, searchBuild_eq s h]

/-- Every result the assembly loop can return is built from a stored
metadata entry and the chunk text at a common position. -/
theorem searchBuild_mem (s : EmbeddingState) :
    ∀ (pairs : List (Nat × Int)) (rs : List SearchResult), searchBuild s pairs = some rs →
      ∀ r ∈ rs, ∃ i score m t,
        s.metadata.get? i = some m ∧ s.documents.get? i = some t ∧
        r = mkResult m score t := by
  intro pairs
  induction pairs with
  | nil =>
    intro rs hrs r hr
    simp only [searchBuild, Option.some_inj] at hrs
    subst hrs
    simp at hr
  | cons p rest ih =>
    intro rs hrs r hr
    obtain ⟨idx, score⟩ := p
    by_cases hidx : idx < s.metadata.length
    · simp only [searchBuild, if_pos hidx] at hrs
      cases hm : s.metadata.get? idx with
      | none => rw [hm] at hrs; cases hrs
      | some m =>
        rw [hm] at hrs
        cases ht : s.documents.get? idx with
        | none => rw [ht] at hrs; cases hrs
        | some t =>
          rw [ht] at hrs
          cases hrest : searchBuild s rest with
          | none => rw [hrest] at hrs; cases hrs
          | some rs' =>
            rw [hrest] at hrs
            have hrs' : mkResult m score t :: rs' = rs := by simpa using hrs
            subst hrs'
            rcases List.mem_cons.mp hr with hr | hr
            · exact ⟨idx, score, m, t, hm, ht, hr⟩
            · exact ih rs' hrest r hr
    · simp only [searchBuild, if_neg hidx] at hrs
      exact ih rs hrs r hr

/-- Every result `search` returns is built from a stored metadata entry and
the chunk text at a common position (no hypothesis on the state needed). -/
theorem search_mem (sim : String → String → Int) (s : EmbeddingState) (q : String) (k : Int) :
    ∀ r ∈ search sim s q k, ∃ i score m t,
      s.metadata.get? i = some m ∧ s.documents.get? i = some t ∧
      r = mkResult m score t := by
  intro r hr
  unfold search at hr
  by_cases h0 : s.index.length = 0
  · rw [if_pos h0] at hr; simp at hr
  · rw [if_neg h0] at hr
    cases hb : searchBuild s (faiss_search sim s.index q (min k (s.index.length : Int))) with
    | none => rw [hb] at hr; simp at hr
    | some rs =>
      rw [hb] at hr
      exact searchBuild_mem s _ rs hb r hr

/-- FAISS output is sorted: descending score, ties by insertion order. -/
theorem faiss_search_sorted (sim : String → String → Int) (index : List String) (q : String)
    (k : Int) : List.Pairwise faissLe (faiss_search sim index q k) :=
  (List.sorted_insertionSort faissLe _).sublist (List.take_sublist _ _)

/-- FAISS output mentions each stored position at most once. -/
theorem faiss_search_nodup_fst (sim : String → String → Int) (index : List String) (q : String)
    (k : Int) :
    List.Pairwise (fun a b : Nat × Int => a.1 ≠ b.1) (faiss_search sim index q k) := by
  have h0 : List.Pairwise (fun a b : Nat × Int => a.1 ≠ b.1)
      (enumFrom 0 (index.map (fun t => sim q t))) :=
    (pairwise_fst_lt_enumFrom _ 0).imp (fun h => Nat.ne_of_lt h)
  have h1 := h0.perm (List.perm_insertionSort faissLe _).symm
    (fun h => Ne.symm h)
  exact h1.sublist (List.take_sublist _ _)

/-- A non-strict rank relation together with distinct positions gives the
strict rank relation. -/
theorem faissLe_and_ne {a b : Nat × Int} (h : faissLe a b ∧ a.1 ≠ b.1) :
    b.2 < a.2 ∨ (a.2 = b.2 ∧ a.1 < b.1) := by
  rcases h with ⟨hle | ⟨heq, hle⟩, hne⟩
  · exact Or.inl hle
  · exact Or.inr ⟨heq, lt_of_le_of_ne hle hne⟩

/-- The surviving pairs are strictly ranked: descending score, ties strictly
by insertion order. -/
theorem searchPairs_sorted (sim : String → String → Int) (s : EmbeddingState) (q : String)
    (k : Int) :
    List.Pairwise (fun a b : Nat × Int => b.2 < a.2 ∨ (a.2 = b.2 ∧ a.1 < b.1))
      (searchPairs sim s q k) := by
  unfold searchPairs
  by_cases h0 : s.index.length = 0
  · simp [h0]
  · rw [if_neg h0]
    have hs := (faiss_search_sorted sim s.index q (min k (s.index.length : Int))).and
      (faiss_search_nodup_fst sim s.index q (min k (s.index.length : Int)))
    exact (hs.imp faissLe_and_ne).filter _

/-! ## Invariant preservation over operation sequences -/

/-- One operation preserves FAISS-index/chunk-store parity (the remove case
additionally needs store/metadata parity, which makes its deletion loop
exception-free). -/
theorem applyOp_index_parity (s : EmbeddingState) (op : Op)
    (h : s.index.length = s.documents.length)
    (h2 : s.documents.length = s.metadata.length) :
    (applyOp s op).index.length = (applyOp s op).documents.length := by
  cases op with
  | add text m =>
    simp only [applyOp]
    cases hc : chunk_text text 512 50 with
    | error e => unfold add_document; rw [hc]; exact h
    | ok chunks =>
      rw [add_document_state true s text m hc]
      simp [h]
  | remove did =>
    simp only [applyOp]
    rw [remove_document_index true s did h2]

/-- One operation preserves chunk-store/metadata parity. -/
theorem applyOp_store_parity (s : EmbeddingState) (op : Op)
    (h : s.documents.length = s.metadata.length) :
    (applyOp s op).documents.length = (applyOp s op).metadata.length := by
  cases op with
  | add text m =>
    simp only [applyOp]
    cases hc : chunk_text text 512 50 with
    | error e => unfold add_document; rw [hc]; exact h
    | ok chunks =>
      rw [add_document_state true s text m hc]
      simp [enumFrom_length, h]
  | remove did =>
    simp only [applyOp]
    rw [remove_document_documents true s did h, remove_document_metadata true s did h]
    exact zip_filter_length (fun m => m.document_id ≠ some did) s.metadata s.documents h

/-- A state predicate preserved by every operation holds at every state of
the trace of an operation sequence. -/
theorem scanl_preserve (P : EmbeddingState → Prop)
    (hP : ∀ s op, P s → P (applyOp s op)) :
    ∀ (ops : List Op) (s : EmbeddingState), P s → ∀ t ∈ List.scanl applyOp s ops, P t := by
  intro ops
  induction ops with
  | nil =>
    intro s hs t ht
    simp only [List.scanl, List.mem_singleton] at ht
    subst ht; exact hs
  | cons op ops ih =>
    intro s hs t ht
    simp only [List.scanl] at ht
    rcases List.mem_cons.mp ht with h | h
    · subst h; exact hs
    · exact ih (applyOp s op) (hP s op hs) t h

/-! ## The claims -/

/-- C1: starting from a fresh store, after each `add_document` /
`remove_document` of any operation sequence the vector count of the FAISS
index (`index_size` in `get_document_stats`) equals the number of stored
chunks (`total_chunks`); and on every store with the maintained
store/metadata parity — which holds at every such trace state, and which
makes the deletion loop exception-free — `remove_document` re-establishes
this by rebuilding the index from the surviving documents: its resulting
index is exactly `_rebuild_index` of its resulting document list. -/
theorem spec_C1 :
    (∀ ops : List Op, ∀ t ∈ List.scanl applyOp emptyState ops,
      (get_document_stats t).index_size = (get_document_stats t).total_chunks) ∧
    (∀ (pOk : Bool) (s : EmbeddingState) (did : String),
      s.documents.length = s.metadata.length →
      (remove_document pOk s did).state.index =
        rebuild_index ((remove_document pOk s did).state.documents)) := by
  constructor
  · intro ops t ht
    exact (scanl_preserve
      (fun u => u.index.length = u.documents.length ∧ u.documents.length = u.metadata.length)
      (fun s op hp => ⟨applyOp_index_parity s op hp.1 hp.2, applyOp_store_parity s op hp.2⟩)
      ops emptyState ⟨rfl, rfl⟩ t ht).1
  · intro pOk s did h
    rw [remove_document_success pOk s did h]

/-- Witness for C1: a concrete two-operation trace (add a document, then
remove it); the final state is in the trace and satisfies index/store
parity, and a concrete parity store's removal rebuilds its index from its
surviving documents. -/
theorem spec_C1_witness :
    ((applyOp (applyOp emptyState (.add "alpha beta" (some "d1"))) (.remove "d1") ∈
      List.scanl applyOp emptyState [.add "alpha beta" (some "d1"), .remove "d1"]) ∧
    (get_document_stats
        (applyOp (applyOp emptyState (.add "alpha beta" (some "d1"))) (.remove "d1"))).index_size =
      (get_document_stats
        (applyOp (applyOp emptyState (.add "alpha beta" (some "d1"))) (.remove "d1"))).total_chunks) ∧
    ((⟨["x"], ["x"], [⟨some "d1", 0, "x"⟩]⟩ : EmbeddingState).documents.length =
        (⟨["x"], ["x"], [⟨some "d1", 0, "x"⟩]⟩ : EmbeddingState).metadata.length ∧
      (remove_document true ⟨["x"], ["x"], [⟨some "d1", 0, "x"⟩]⟩ "d1").state.index =
        rebuild_index ((remove_document true ⟨["x"], ["x"], [⟨some "d1", 0, "x"⟩]⟩
          "d1").state.documents)) :=
  ⟨⟨by decide, spec_C1.1 [.add "alpha beta" (some "d1"), .remove "d1"] _ (by decide)⟩,
   ⟨by decide, spec_C1.2 true ⟨["x"], ["x"], [⟨some "d1", 0, "x"⟩]⟩ "d1" (by decide)⟩⟩

/-- C7: starting from a fresh store, after each operation of any
`add_document` / `remove_document` sequence the parallel `documents` and
`metadata` lists have equal length. -/
theorem spec_C7 : ∀ ops : List Op, ∀ t ∈ List.scanl applyOp emptyState ops,
    t.documents.length = t.metadata.length := fun ops t ht =>
  scanl_preserve (fun u => u.documents.length = u.metadata.length)
    applyOp_store_parity ops emptyState rfl t ht

/-- Witness for C7: the same concrete two-operation trace, checked for
store/metadata parity at the state after the add. -/
theorem spec_C7_witness :
    (applyOp emptyState (.add "alpha beta" (some "d1")) ∈
      List.scanl applyOp emptyState [.add "alpha beta" (some "d1"), .remove "d1"]) ∧
    (applyOp emptyState (.add "alpha beta" (some "d1"))).documents.length =
      (applyOp emptyState (.add "alpha beta" (some "d1"))).metadata.length :=
  ⟨by decide, spec_C7 [.add "alpha beta" (some "d1"), .remove "d1"] _ (by decide)⟩

/-- C3: the chunker splits on whitespace, windows of `chunkSize` tokens
advance by `chunkSize - overlap`, windows are rejoined with single spaces —
checked on the spec's literal example: chunking the nine-word sentence with
`chunkSize=4, overlap=1` (stride 3) yields exactly the three stated
chunks. -/
theorem spec_C3 :
    chunk_text "the quick brown fox jumps over the lazy dog" 4 1 =
      .ok ["the quick brown fox", "fox jumps over the", "the lazy dog"] := by
  decide

/-- Counterexample for C4: with `chunkSize=2, overlap=3` (so
`overlap >= chunkSize`) the chunker does not fail: the stride is negative,
Python's `range` is simply empty, and the fallback single-element sequence
`[text]` is returned as a normal result. -/
theorem spec_C4_counterexample : chunk_text "a b" 2 3 = .ok ["a b"] := by
  decide

/-- C4 (amended): with `overlap >= chunkSize` the chunker never loops
forever; for `overlap = chunkSize` it fails fast — with Python `range`'s
zero-step `ValueError`, not a dedicated `InvalidConfiguration` error — and
for `overlap > chunkSize` it returns the fallback `[text]` as a normal
result. -/
theorem spec_C4_amended (text : String) (cs ov : Int) (h : cs ≤ ov) :
    chunk_text text cs ov = if ov = cs then .error .zeroStep else .ok [text] := by
  by_cases hcs : ov = cs
  · rw [if_pos hcs]
    exact chunk_text_eq_error text cs ov (by rw [show cs - ov = 0 by omega]; exact pyRange0_zero)
  · rw [if_neg hcs]
    have h2 := @chunk_text_eq_ok text cs ov [] (pyRange0_neg (by omega))
    simpa [collectChunks] using h2

/-- Witness for C4 (amended), at `chunkSize=2, overlap=2` and
`chunkSize=2, overlap=3`. -/
theorem spec_C4_witness :
    ((2 : Int) ≤ 2 ∧ chunk_text "a b" 2 2 = .error .zeroStep) ∧
    ((2 : Int) ≤ 3 ∧ chunk_text "a b" 2 3 = .ok ["a b"]) :=
  ⟨⟨by decide, by rw [spec_C4_amended "a b" 2 2 (by decide)]; decide⟩,
   ⟨by decide, by rw [spec_C4_amended "a b" 2 3 (by decide)]; decide⟩⟩

/-- C8: for `overlap < chunkSize` the chunker always succeeds and never
returns an empty sequence, and whenever the collection loop produces no
chunk (every window empty) it returns the single-element sequence holding
the original text unmodified. -/
theorem spec_C8 (text : String) (cs ov : Int) (h : ov < cs) :
    (∃ l, chunk_text text cs ov = .ok l ∧ l ≠ []) ∧
    (∀ idxs, pyRange0 (pysplit text).length (cs - ov) = .ok idxs →
      collectChunks (pysplit text) idxs cs = [] → chunk_text text cs ov = .ok [text]) := by
  have hr : pyRange0 (pysplit text).length (cs - ov) =
      .ok ((List.range (((pysplit text).length + (cs - ov).toNat - 1) / (cs - ov).toNat)).map
        (fun j => j * (cs - ov).toNat)) := pyRange0_pos (by omega)
  constructor
  · refine ⟨_, chunk_text_eq_ok text cs ov hr, ?_⟩
    split
    · exact List.cons_ne_nil _ _
    · next hne => exact fun hcon => hne (by simp [hcon])
  · intro idxs hidxs hcoll
    rw [chunk_text_eq_ok text cs ov hidxs, hcoll]
    rfl

/-- Witness for C8: whitespace-only text with `chunkSize=4, overlap=1`
produces no window, so the original text comes back unmodified (and the
result is non-empty). -/
theorem spec_C8_witness :
    ((1 : Int) < 4) ∧ chunk_text "   " 4 1 = .ok ["   "] :=
  ⟨by decide, (spec_C8 "   " 4 1 (by decide)).2 [] (by decide) (by decide)⟩

/-- A store holding one chunk of document `d1`, built through the public
`add_document` operation. -/
def oneDocState : EmbeddingState :=
  (add_document true emptyState "alpha beta" (some "d1")).state

/-- Counterexample for C5: `remove_document` returns `True` both on a store
where one pair matches and on a store where none matches — the identical
return value cannot be the number of pairs removed, and in particular a
no-match removal returns `True`, not `0`. -/
theorem spec_C5_counterexample :
    (remove_document true emptyState "d1").ok = (remove_document true oneDocState "d1").ok ∧
    emptyState.metadata.length - (remove_document true emptyState "d1").state.metadata.length
      = 0 ∧
    oneDocState.metadata.length - (remove_document true oneDocState "d1").state.metadata.length
      = 1 := by
  decide

/-- C5 (amended): on a store whose parallel chunk and metadata lists have
equal length (the maintained invariant; the deletion loop then cannot
raise), `remove_document` removes exactly the chunk/metadata pairs whose
metadata `document_id` equals the argument (deleting collected positions in
descending index order), and returns the success flag `True` — also `True`,
not a count of `0`, when no pair matches. -/
theorem spec_C5_amended (pOk : Bool) (s : EmbeddingState) (did : String)
    (h : s.documents.length = s.metadata.length) :
    (remove_document pOk s did).state.metadata =
      s.metadata.filter (fun m => m.document_id ≠ some did) ∧
    (remove_document pOk s did).state.documents =
      ((s.documents.zip s.metadata).filter (fun p => p.2.document_id ≠ some did)).map
        Prod.fst ∧
    (remove_document pOk s did).ok = true :=
  ⟨remove_document_metadata pOk s did h, remove_document_documents pOk s did h,
   remove_document_ok pOk s did h⟩

/-- Witness for C5 (amended): removing `d1` from the one-document store
leaves no metadata and no chunks and returns `True`. -/
theorem spec_C5_witness :
    (remove_document true oneDocState "d1").state.metadata =
      oneDocState.metadata.filter (fun m => m.document_id ≠ some "d1") ∧
    (remove_document true oneDocState "d1").state.documents =
      ((oneDocState.documents.zip oneDocState.metadata).filter
        (fun p => p.2.document_id ≠ some "d1")).map Prod.fst ∧
    (remove_document true oneDocState "d1").ok = true :=
  spec_C5_amended true oneDocState "d1" (by decide)

/-- Counterexample for C6: an `add_document` whose persist step fails (the
`save_index` write error is displayed) still reports success. -/
theorem spec_C6_counterexample :
    (add_document false emptyState "hello world" (some "d1")).ok = true ∧
    (add_document false emptyState "hello world" (some "d1")).persistError = true := by
  decide

/-- C6 (amended): when persisting fails the in-memory state is exactly the
state the mutation produced (unchanged by the failure), but the failure is
only displayed as an error message inside `save_index` — the mutating
operations still report their usual result (`add_document` returns `True`;
`remove_document` returns `True` on every store with the maintained
store/metadata parity, where its deletion loop cannot raise), so the caller
is not told via the return value. -/
theorem spec_C6_amended (pOk : Bool) (s : EmbeddingState) (text : String) (m : Option String)
    (did : String) :
    (add_document pOk s text m).state = (add_document true s text m).state ∧
    (add_document pOk s text m).ok = true ∧
    (pOk = false → (add_document pOk s text m).persistError = true) ∧
    (remove_document pOk s did).state = (remove_document true s did).state ∧
    (s.documents.length = s.metadata.length →
      (remove_document pOk s did).ok = true ∧
      (pOk = false → (remove_document pOk s did).persistError = true)) := by
  obtain ⟨chunks, hc⟩ := chunk_text_512_ok text
  refine ⟨?_, ?_, ?_, ?_, ?_⟩
  · unfold add_document
    rw [hc]
  · unfold add_document
    rw [hc]
  · intro h
    subst h
    unfold add_document
    rw [hc]
    rfl
  · unfold remove_document
    rcases removeLoop (matchIdxsFrom did 0 s.metadata).reverse s.metadata s.documents with
      ⟨b, md, docs⟩
    cases b <;> rfl
  · intro h
    refine ⟨remove_document_ok pOk s did h, ?_⟩
    intro hp
    subst hp
    rw [remove_document_success false s did h]
    rfl

/-- Witness for C6 (amended): concrete failing-persist add and remove on the
empty store. -/
theorem spec_C6_witness :
    ((add_document false emptyState "hello world" (some "d1")).state =
      (add_document true emptyState "hello world" (some "d1")).state) ∧
    (false = false → (add_document false emptyState "hello world" (some "d1")).persistError
      = true) ∧
    ((emptyState.documents.length = emptyState.metadata.length) ∧
      ((remove_document false emptyState "d1").ok = true ∧
        (false = false → (remove_document false emptyState "d1").persistError = true))) :=
  ⟨(spec_C6_amended false emptyState "hello world" (some "d1") "d1").1,
   (spec_C6_amended false emptyState "hello world" (some "d1") "d1").2.2.1,
   ⟨rfl, (spec_C6_amended false emptyState "hello world" (some "d1") "d1").2.2.2.2 rfl⟩⟩

/-- C2: on a store satisfying the maintained parity invariants, `search`
returns at most `min(k, totalChunks)` results; the result list is exactly
the record of each surviving ranked pair, those pairs are sorted by strictly
descending score with ties strictly in insertion order (so the result
scores are descending); every result is a stored metadata entry plus the
similarity score and the chunk's text; and the result is empty whenever the
store is empty or `k ≤ 0`. -/
theorem spec_C2 (sim : String → String → Int) (s : EmbeddingState) (q : String) (k : Int)
    (h1 : s.index.length = s.documents.length) (h2 : s.documents.length = s.metadata.length) :
    ((search sim s q k).length ≤ (min k (s.documents.length : Int)).toNat) ∧
    search sim s q k = (searchPairs sim s q k).map (resultOfPair s) ∧
    List.Pairwise (fun a b : Nat × Int => b.2 < a.2 ∨ (a.2 = b.2 ∧ a.1 < b.1))
      (searchPairs sim s q k) ∧
    List.Pairwise (fun a b : SearchResult => b.similarity_score ≤ a.similarity_score)
      (search sim s q k) ∧
    (∀ r ∈ search sim s q k, ∃ i m, s.metadata.get? i = some m ∧
      s.documents.get? i = some r.text ∧ r.document_id = m.document_id ∧
      r.chunk_id = m.chunk_id ∧ r.chunk_text = m.chunk_text) ∧
    ((s.documents = [] ∨ k ≤ 0) → search sim s q k = []) := by
  have hmap := search_eq sim s q k h2
  refine ⟨?_, hmap, searchPairs_sorted sim s q k, ?_, ?_, ?_⟩
  · rw [hmap, List.length_map]
    unfold searchPairs
    by_cases h0 : s.index.length = 0
    · simp [h0]
    · rw [if_neg h0, ← h1]
      calc (List.filter _ (faiss_search sim s.index q (min k (s.index.length : Int)))).length
          ≤ (faiss_search sim s.index q (min k (s.index.length : Int))).length :=
            List.length_filter_le _ _
        _ ≤ (min k (s.index.length : Int)).toNat := List.length_take_le _ _
  · rw [hmap]
    have himp : ∀ {a b : Nat × Int}, (b.2 < a.2 ∨ (a.2 = b.2 ∧ a.1 < b.1)) →
        (resultOfPair s b).similarity_score ≤ (resultOfPair s a).similarity_score := by
      intro a b hab
      rcases hab with hab | ⟨hab, _⟩
      · exact le_of_lt (by simpa [resultOfPair, mkResult] using hab)
      · simp [resultOfPair, mkResult, hab.symm, le_refl]
    exact List.pairwise_map.mpr ((searchPairs_sorted sim s q k).imp himp)
  · intro r hr
    obtain ⟨i, score, m, t, hm, ht, hrt⟩ := search_mem sim s q k r hr
    subst hrt
    exact ⟨i, m, hm, ht, rfl, rfl, rfl⟩
  · intro hek
    rcases hek with he | hk
    · have h0 : s.index.length = 0 := by rw [h1, he]; rfl
      unfold search
      rw [if_pos h0]
    · rw [hmap]
      unfold searchPairs
      by_cases h0 : s.index.length = 0
      · simp [h0]
      · rw [if_neg h0]
        have htk : (min k (s.index.length : Int)).toNat = 0 := by omega
        unfold faiss_search
        rw [htk]
        simp

/-- Witness for C2: a concrete two-chunk store, scored by text length, with
`k = 1`. -/
theorem spec_C2_witness :
    ((fun s : EmbeddingState => s.index.length = s.documents.length ∧
        s.documents.length = s.metadata.length)
      ⟨["alpha beta", "gamma"], ["alpha beta", "gamma"],
        [⟨some "d1", 0, "alpha beta"⟩, ⟨some "d2", 0, "gamma"⟩]⟩) ∧
    (search (fun _ t => (t.length : Int))
        ⟨["alpha beta", "gamma"], ["alpha beta", "gamma"],
          [⟨some "d1", 0, "alpha beta"⟩, ⟨some "d2", 0, "gamma"⟩]⟩ "q" 1).length ≤
      (min 1 ((2 : Nat) : Int)).toNat :=
  ⟨⟨rfl, rfl⟩,
    by
      have h := (spec_C2 (fun _ t => (t.length : Int))
        ⟨["alpha beta", "gamma"], ["alpha beta", "gamma"],
          [⟨some "d1", 0, "alpha beta"⟩, ⟨some "d2", 0, "gamma"⟩]⟩ "q" 1 rfl rfl).1
      exact h⟩

/-- C10: whenever the two parallel stores agree in length — even if the
FAISS index holds more entries than they do — the assembly loop never hits
its unguarded access (it returns a value, never the exception path), every
returned result is drawn from a common in-bounds position of the metadata
and chunk stores, and at most `min(k, indexSize)` results are returned. -/
theorem spec_C10 (sim : String → String → Int) (s : EmbeddingState) (q : String) (k : Int)
    (h : s.documents.length = s.metadata.length) :
    (searchBuild s (faiss_search sim s.index q (min k (s.index.length : Int))) =
      some (((faiss_search sim s.index q (min k (s.index.length : Int))).filter
        (fun p => p.1 < s.metadata.length)).map (resultOfPair s))) ∧
    (∀ r ∈ search sim s q k, ∃ i m, i < s.metadata.length ∧ i < s.documents.length ∧
      s.metadata.get? i = some m ∧ s.documents.get? i = some r.text ∧
      r.document_id = m.document_id) ∧
    ((search sim s q k).length ≤ (min k (s.index.length : Int)).toNat) := by
  refine ⟨searchBuild_eq s h _, ?_, ?_⟩
  · intro r hr
    obtain ⟨i, score, m, t, hm, ht, hrt⟩ := search_mem sim s q k r hr
    subst hrt
    have him : i < s.metadata.length := by
      by_contra hge
      rw [List.get?_eq_none.mpr (by omega)] at hm
      cases hm
    have hid : i < s.documents.length := by
      by_contra hge
      rw [List.get?_eq_none.mpr (by omega)] at ht
      cases ht
    exact ⟨i, m, him, hid, hm, ht, rfl⟩
  · rw [search_eq sim s q k h, List.length_map]
    unfold searchPairs
    by_cases h0 : s.index.length = 0
    · simp [h0]
    · rw [if_neg h0]
      calc (List.filter _ (faiss_search sim s.index q (min k (s.index.length : Int)))).length
          ≤ (faiss_search sim s.index q (min k (s.index.length : Int))).length :=
            List.length_filter_le _ _
        _ ≤ (min k (s.index.length : Int)).toNat := List.length_take_le _ _

/-- Witness for C10: a store whose FAISS index holds three entries while the
parallel stores hold two; search still returns only well-formed results,
within the bound. -/
theorem spec_C10_witness :
    ((2 : Nat) = 2) ∧
    (search (fun _ t => (t.length : Int))
        ⟨["alpha beta", "gamma", "extra"], ["alpha beta", "gamma"],
          [⟨some "d1", 0, "alpha beta"⟩, ⟨some "d2", 0, "gamma"⟩]⟩ "q" 5).length ≤
      (min 5 ((3 : Nat) : Int)).toNat :=
  ⟨rfl,
    (spec_C10 (fun _ t => (t.length : Int))
      ⟨["alpha beta", "gamma", "extra"], ["alpha beta", "gamma"],
        [⟨some "d1", 0, "alpha beta"⟩, ⟨some "d2", 0, "gamma"⟩]⟩ "q" 5 rfl).2.2⟩

/-- A store holding one chunk of `d1` and one chunk of `d2`, built through
the public `add_document` operation. -/
def twoDocState : EmbeddingState :=
  (add_document true (add_document true emptyState "alpha beta" (some "d1")).state
    "gamma delta" (some "d2")).state

/-- Counterexample for C9: the claim quantifies over any store state, but on
a store whose `documents` list is shorter than its `metadata` list the
source's deletion loop raises `IndexError` part-way (`del self.documents[2]`
with one document), the `except` returns `False`, and a metadata entry with
the removed id survives — a subsequent `search` even returns a result
referencing it, since the FAISS index was never rebuilt. -/
theorem spec_C9_counterexample :
    (⟨some "d1", 0, "x"⟩ : ChunkMeta) ∈
      (remove_document true
        ⟨["x"], ["x"],
          [⟨some "d1", 0, "x"⟩, ⟨some "d2", 0, "y"⟩, ⟨some "d1", 0, "z"⟩]⟩ "d1").state.metadata ∧
    ((search (fun _ _ => 0)
        (remove_document true
          ⟨["x"], ["x"],
            [⟨some "d1", 0, "x"⟩, ⟨some "d2", 0, "y"⟩, ⟨some "d1", 0, "z"⟩]⟩ "d1").state
        "q" 1).map SearchResult.document_id) = [some "d1"] := by
  decide

/-- C9 (amended): after `remove_document did` completes on a store whose
parallel chunk and metadata lists have equal length (the maintained
invariant; removal then runs to completion), no stored metadata entry
carries `did`, so no `search` result references `did`; on the concrete
store holding chunks of `d1` and `d2`, removing `d1` leaves exactly `d2`'s
chunks and `get_document_stats` reports one remaining document. -/
theorem spec_C9 (s : EmbeddingState) (did : String) (sim : String → String → Int)
    (q : String) (k : Int) (h : s.documents.length = s.metadata.length) :
    (∀ m ∈ (remove_document true s did).state.metadata, m.document_id ≠ some did) ∧
    (∀ r ∈ search sim (remove_document true s did).state q k, r.document_id ≠ some did) ∧
    (remove_document true twoDocState "d1").state.documents = ["gamma delta"] ∧
    (get_document_stats (remove_document true twoDocState "d1").state).total_documents = 1 := by
  have hmeta : ∀ m ∈ (remove_document true s did).state.metadata, m.document_id ≠ some did := by
    rw [remove_document_metadata true s did h]
    intro m hm
    have := (List.mem_filter.mp hm).2
    simpa using this
  refine ⟨hmeta, ?_, by decide, by decide⟩
  intro r hr
  obtain ⟨i, score, m, t, hm, ht, hrt⟩ :=
    search_mem sim (remove_document true s did).state q k r hr
  subst hrt
  show (mkResult m score t).document_id ≠ some did
  have : m ∈ (remove_document true s did).state.metadata := List.get?_mem hm
  simpa [mkResult] using hmeta m this

/-- Witness for C9 (amended): the surviving metadata entry of the concrete
parity scenario does not reference the removed document id. -/
theorem spec_C9_witness :
    (⟨some "d2", 0, "gamma delta"⟩ : ChunkMeta) ∈
      (remove_document true twoDocState "d1").state.metadata ∧
    (⟨some "d2", 0, "gamma delta"⟩ : ChunkMeta).document_id ≠ some "d1" :=
  ⟨by decide,
    (spec_C9 twoDocState "d1" (fun _ _ => 0) "q" 5 (by decide)).1
      ⟨some "d2", 0, "gamma delta"⟩ (by decide)⟩

end DocGen
